import Mathlib

/-!
# ofxCv `ContourFinder`: a shallow embedding and its verified properties

The definitions below follow `libs/ofxCv/src/ContourFinder.cpp` function by function.
Calls into the vision library (`approxPolyDP`, `contourArea`, `minAreaRect`, `fitEllipse`,
`boundingRect`, `convexHull`, `std::sort`) are parameters of the definitions that use them.

Numbers: `double` and `float` values are rationals (`ℚ`), with `Flt` adding the one special value
the source itself writes, `numeric_limits<...>::infinity()`.  The narrowing of a `double` value
to a `float` member, in the two radius setters, is the parameter `toFloat`; the rounding of
`double` arithmetic itself is not modelled.  In the quadrilateral search every value is `16` times
a power of two with a small exponent, or a midpoint of two such values, over at most 16
iterations, so the rational values are the `double` values.
`int` arithmetic is integer arithmetic wrapped to 32 bits.
-/

namespace ofxCv

/-! ## Data model -/

/-- A `cv::Point`: integer pixel coordinates. -/
abbrev Point := Int × Int

/-- A `vector<cv::Point>`: a contour, a convex hull or a fitted quad. -/
abbrev Contour := List Point

/-- A floating-point value that may be `+infinity`: either a finite value or
`numeric_limits<...>::infinity()`. -/
inductive Flt where
  | fin (q : ℚ)
  | inf
deriving DecidableEq

/-! ## `getFitQuad` (ContourFinder.cpp, lines 201 to 235) -/

/-- The local variables of `getFitQuad`, together with a log of the epsilon arguments of the
`approxPolyDP` calls made so far (most recent call first). -/
structure QuadSearch where
  minEpsilon : ℚ
  maxEpsilon : Flt
  curEpsilon : ℚ
  quad : Contour
  calls : List ℚ

/-- The constant `targetPoints`. -/
def targetPoints : Nat := 4

/-- The constant `maxIterations`. -/
def maxIterations : Nat := 16

/-- The locals of `getFitQuad` before the search: `quad = convexHull`, `minEpsilon = 0`,
`maxEpsilon = infinity`, `curEpsilon = 16`. -/
def quadInit (convexHull : Contour) : QuadSearch :=
  { minEpsilon := 0, maxEpsilon := Flt.inf, curEpsilon := 16, quad := convexHull, calls := [] }

/-- One pass through the body of the `for` loop (lines 215 to 230).  The Boolean is `true` when
the pass leaves the loop through `break`. -/
def quadLoopBody (approxPolyDP : Contour → ℚ → Contour) (convexHull : Contour)
    (s : QuadSearch) : QuadSearch × Bool :=
  let quad := approxPolyDP convexHull s.curEpsilon
  let s1 : QuadSearch := { s with quad := quad, calls := s.curEpsilon :: s.calls }
  if quad.length = targetPoints then (s1, true)
  else
    let s2 : QuadSearch :=
      if quad.length > targetPoints then
        match s1.maxEpsilon with
        | Flt.inf => { s1 with minEpsilon := s1.curEpsilon, curEpsilon := s1.curEpsilon * 2 }
        | Flt.fin maxEps =>
            { s1 with minEpsilon := s1.curEpsilon, curEpsilon := (maxEps + s1.curEpsilon) / 2 }
      else s1
    let s3 : QuadSearch :=
      if quad.length < targetPoints then
        { s2 with maxEpsilon := Flt.fin s2.curEpsilon,
                  curEpsilon := (s2.curEpsilon + s2.minEpsilon) / 2 }
      else s2
    (s3, false)

/-- The `for` loop with `n` iterations left. -/
def quadLoop (approxPolyDP : Contour → ℚ → Contour) (convexHull : Contour) :
    Nat → QuadSearch → QuadSearch
  | 0, s => s
  | n + 1, s =>
      match quadLoopBody approxPolyDP convexHull s with
      | (s1, true) => s1
      | (s1, false) => quadLoop approxPolyDP convexHull n s1

/-- The search of `getFitQuad` applied to a hull: the final locals, of which `quad` is the value
returned. -/
def fitQuad (approxPolyDP : Contour → ℚ → Contour) (convexHull : Contour) : QuadSearch :=
  if convexHull.length > 4 then
    quadLoop approxPolyDP convexHull maxIterations (quadInit convexHull)
  else quadInit convexHull

/-! ## The `ContourFinder` object (ContourFinder.h, lines 88 to 102) -/

/-- A `cv::Rect` with its `int` fields. -/
structure Rect where
  x : Int
  y : Int
  width : Int
  height : Int
deriving DecidableEq

/-- A `cv::Mat` as far as `findContours` reads it: its `int` fields `rows` and `cols`. -/
structure Mat where
  rows : Int
  cols : Int

/-- The value of an `int` expression whose mathematical value is `z`: `z` wrapped to 32 bits,
two's complement. -/
def wrapInt32 (z : Int) : Int :=
  (z + 2147483648) % 4294967296 - 2147483648

/-- Comparison `a < b` on values that may be infinite. -/
def Flt.lt : Flt → Flt → Bool
  | Flt.fin a, Flt.fin b => decide (a < b)
  | Flt.fin _, Flt.inf => true
  | Flt.inf, _ => false

/-- Comparison `a <= b` on values that may be infinite. -/
def Flt.le : Flt → Flt → Bool
  | Flt.fin a, Flt.fin b => decide (a ≤ b)
  | _, Flt.inf => true
  | Flt.inf, Flt.fin _ => false

/-- The product `a * x` with a finite `x`.  The source forms a product with an infinite `a` only
where it never reads the result (the max filter is off when `maxArea` is infinite), and the
value given here for that case is `+infinity`. -/
def Flt.mul : Flt → ℚ → Flt
  | Flt.fin a, x => Flt.fin (a * x)
  | Flt.inf, _ => Flt.inf

/-- The data members of `ContourFinder` that the modelled functions read or write.  `minArea` is
a finite `float`; `maxArea` is a `float` that may be `+infinity`. -/
structure ContourFinder where
  invert : Bool
  simplify : Bool
  contourFindingMode : Int
  sortBySize : Bool
  minArea : ℚ
  maxArea : Flt
  minAreaNorm : Bool
  maxAreaNorm : Bool
  contours : List Contour
  boundingRects : List Rect

/-- The constant `CV_RETR_EXTERNAL`. -/
def CV_RETR_EXTERNAL : Int := 0

/-- The constant `CV_RETR_LIST`. -/
def CV_RETR_LIST : Int := 1

/-! ### The area setters (ContourFinder.cpp, lines 255 to 291) -/

/-- `ContourFinder::setMinArea`. -/
def setMinArea (cf : ContourFinder) (minArea : ℚ) : ContourFinder :=
  { cf with minArea := minArea, minAreaNorm := false }

/-- `ContourFinder::setMaxArea`. -/
def setMaxArea (cf : ContourFinder) (maxArea : Flt) : ContourFinder :=
  { cf with maxArea := maxArea, maxAreaNorm := false }

/-- `ContourFinder::resetMinArea`. -/
def resetMinArea (cf : ContourFinder) : ContourFinder :=
  setMinArea cf 0

/-- `ContourFinder::resetMaxArea`. -/
def resetMaxArea (cf : ContourFinder) : ContourFinder :=
  setMaxArea cf Flt.inf

/-- `ContourFinder::setFindHoles`. -/
def setFindHoles (cf : ContourFinder) (findHoles : Bool) : ContourFinder :=
  if findHoles then { cf with contourFindingMode := CV_RETR_LIST }
  else { cf with contourFindingMode := CV_RETR_EXTERNAL }

/-- `ContourFinder::setInvert`. -/
def setInvert (cf : ContourFinder) (invert : Bool) : ContourFinder :=
  { cf with invert := invert }

/-- `ContourFinder::setSimplify`. -/
def setSimplify (cf : ContourFinder) (simplify : Bool) : ContourFinder :=
  { cf with simplify := simplify }

/-- `ContourFinder::setSortBySize`. -/
def setSortBySize (cf : ContourFinder) (sizeSort : Bool) : ContourFinder :=
  { cf with sortBySize := sizeSort }

/-- The constructor `ContourFinder::ContourFinder()`: the member initialisers, then
`resetMinArea()` and `resetMaxArea()`.  The area members are not initialised before the two
resets write them; the record they are applied to holds zeros there. -/
def ContourFinder.new : ContourFinder :=
  resetMaxArea (resetMinArea
    { invert := false, simplify := true, contourFindingMode := CV_RETR_EXTERNAL,
      sortBySize := false, minArea := 0, maxArea := Flt.fin 0, minAreaNorm := false,
      maxAreaNorm := false, contours := [], boundingRects := [] })

/-- `CompareContourArea::operator()`: `mAreaVec[a] > mAreaVec[b]`; `none` stands for a read
outside `mAreaVec`. -/
def CompareContourArea (mAreaVec : List ℚ) (a b : Nat) : Option Bool :=
  match mAreaVec[a]?, mAreaVec[b]? with
  | some x, some y => some (decide (x > y))
  | _, _ => none

/-- Line 43: `needMinFilter`. -/
def needMinFilter (cf : ContourFinder) : Bool :=
  decide (cf.minArea > 0)

/-- Line 44: `needMaxFilter`. -/
def needMaxFilter (cf : ContourFinder) : Bool :=
  if cf.maxAreaNorm then Flt.lt cf.maxArea (Flt.fin 1) else Flt.lt cf.maxArea Flt.inf

/-- Line 48: `imgArea`, the `int` product `srcCopy.rows * srcCopy.cols` converted to `double`. -/
def imgArea (srcCopy : Mat) : ℚ :=
  ((wrapInt32 (srcCopy.rows * srcCopy.cols) : Int) : ℚ)

/-- Line 49: `imgMinArea`. -/
def imgMinArea (cf : ContourFinder) (srcCopy : Mat) : ℚ :=
  if cf.minAreaNorm then cf.minArea * imgArea srcCopy else cf.minArea

/-- Line 50: `imgMaxArea`. -/
def imgMaxArea (cf : ContourFinder) (srcCopy : Mat) : Flt :=
  if cf.maxAreaNorm then Flt.mul cf.maxArea (imgArea srcCopy) else cf.maxArea

/-- Lines 54 and 55: the test a contour of area `curArea` has to pass to be kept. -/
def passesAreaFilter (cf : ContourFinder) (srcCopy : Mat) (curArea : ℚ) : Bool :=
  (!needMinFilter cf || decide (curArea ≥ imgMinArea cf srcCopy)) &&
  (!needMaxFilter cf || Flt.le (Flt.fin curArea) (imgMaxArea cf srcCopy))

/-- Lines 51 to 58: the filtering loop from index `i` on, over the contours not yet visited,
with the vectors `allIndices` and `allAreas` built so far. -/
def filterLoop (contourArea : Contour → ℚ) (cf : ContourFinder) (srcCopy : Mat) :
    Nat → List Contour → List Nat × List ℚ → List Nat × List ℚ
  | _, [], acc => acc
  | i, c :: rest, (allIndices, allAreas) =>
      let curArea := contourArea c
      let allAreas := allAreas ++ [curArea]
      if passesAreaFilter cf srcCopy curArea then
        filterLoop contourArea cf srcCopy (i + 1) rest (allIndices ++ [i], allAreas)
      else
        filterLoop contourArea cf srcCopy (i + 1) rest (allIndices, allAreas)

/-- Lines 60 to 65: the loop of the branch without a filter. -/
def plainLoop (contourArea : Contour → ℚ) (cf : ContourFinder) :
    Nat → List Contour → List Nat × List ℚ → List Nat × List ℚ
  | _, [], acc => acc
  | i, c :: rest, (allIndices, allAreas) =>
      let allAreas := if cf.sortBySize then allAreas ++ [contourArea c] else allAreas
      plainLoop contourArea cf (i + 1) rest (allIndices ++ [i], allAreas)

/-- Lines 43 to 66: the vectors `allIndices` and `allAreas` after the filter. -/
def filterContours (contourArea : Contour → ℚ) (cf : ContourFinder) (srcCopy : Mat)
    (allContours : List Contour) : List Nat × List ℚ :=
  if needMinFilter cf || needMaxFilter cf then
    filterLoop contourArea cf srcCopy 0 allContours ([], [])
  else
    plainLoop contourArea cf 0 allContours ([], [])

/-- Lines 68 to 71: `allIndices` after the optional `std::sort`, which is a parameter. -/
def sortIndices (stdSort : (Nat → Nat → Option Bool) → List Nat → List Nat)
    (cf : ContourFinder) (allIndices : List Nat) (allAreas : List ℚ) : List Nat :=
  if allIndices.length > 1 && cf.sortBySize then
    stdSort (CompareContourArea allAreas) allIndices
  else allIndices

/-- Lines 79 and 80: the contours pushed to `contours`, `allContours[allIndices[i]]` for each
`i`; `none` stands for a read outside `allContours`. -/
def storeLoop (allContours : List Contour) : List Nat → Option (List Contour)
  | [] => some []
  | i :: rest =>
      match allContours[i]?, storeLoop allContours rest with
      | some c, some cs => some (c :: cs)
      | _, _ => none

/-- `ContourFinder::findContours`, from the contours `allContours` that `cv::findContours`
extracted from `srcCopy`: the object with its new `contours` and `boundingRects`.  The polylines
and blobs, which are computed from `contours` and read by none of the modelled functions, are
left out. -/
def findContours (stdSort : (Nat → Nat → Option Bool) → List Nat → List Nat)
    (contourArea : Contour → ℚ) (boundingRect : Contour → Rect)
    (cf : ContourFinder) (srcCopy : Mat) (allContours : List Contour) : Option ContourFinder :=
  let fa := filterContours contourArea cf srcCopy allContours
  let allIndices := sortIndices stdSort cf fa.1 fa.2
  (storeLoop allContours allIndices).map
    (fun cs => { cf with contours := cs, boundingRects := cs.map boundingRect })

/-- The contract of `std::sort` for the comparator `CompareContourArea`, when every read of the
comparator on elements of the range is in bounds: the result is a permutation of the range, and
no later element compares before an earlier one. -/
def SortContract (stdSort : (Nat → Nat → Option Bool) → List Nat → List Nat) : Prop :=
  ∀ (areas : List ℚ) (l : List Nat),
    (∀ a ∈ l, ∀ b ∈ l, (CompareContourArea areas a b).isSome = true) →
    (stdSort (CompareContourArea areas) l).Perm l ∧
    (stdSort (CompareContourArea areas) l).Pairwise
      (fun x y => CompareContourArea areas y x = some false)

/-! ### Accessors (ContourFinder.cpp, lines 143 to 199) -/

/-- `ContourFinder::getBoundingRect(i)`; `none` stands for an index outside `boundingRects`. -/
def getBoundingRect (cf : ContourFinder) (i : Nat) : Option Rect :=
  cf.boundingRects[i]?

/-- `ContourFinder::getCenter(i)`: `box.x + box.width / 2` and `box.y + box.height / 2` are `int`
expressions (the division truncates), converted to `float` by the `cv::Point2f` constructor. -/
def getCenter (cf : ContourFinder) (i : Nat) : Option (ℚ × ℚ) :=
  (getBoundingRect cf i).map (fun box =>
    (((wrapInt32 (box.x + Int.tdiv box.width 2) : Int) : ℚ),
     ((wrapInt32 (box.y + Int.tdiv box.height 2) : Int) : ℚ)))

/-- `ContourFinder::getMinAreaRect(i)`, with `cv::minAreaRect` a parameter. -/
def getMinAreaRect {R : Type} (minAreaRect : Contour → R) (cf : ContourFinder) (i : Nat) :
    Option R :=
  (cf.contours[i]?).map minAreaRect

/-- `ContourFinder::getFitEllipse(i)`, with `cv::minAreaRect` and `cv::fitEllipse` parameters:
the value returned, and the contours passed to `fitEllipse` during the call. -/
def getFitEllipse {R : Type} (minAreaRect fitEllipse : Contour → R) (cf : ContourFinder)
    (i : Nat) : Option (R × List Contour) :=
  match cf.contours[i]? with
  | none => none
  | some c =>
      if c.length < 5 then (getMinAreaRect minAreaRect cf i).map (fun r => (r, []))
      else some (fitEllipse c, [c])

/-- `ContourFinder::getConvexHull(i)`, with `cv::convexHull` a parameter; `none` stands for an
index outside `contours`. -/
def getConvexHull (cvConvexHull : Contour → Contour) (cf : ContourFinder) (i : Nat) :
    Option Contour :=
  (cf.contours[i]?).map cvConvexHull

/-- `ContourFinder::getFitQuad(i)`: the search `fitQuad` applied to the convex hull of contour
`i`. -/
def getFitQuad (cvConvexHull : Contour → Contour) (approxPolyDP : Contour → ℚ → Contour)
    (cf : ContourFinder) (i : Nat) : Option Contour :=
  (getConvexHull cvConvexHull cf i).map (fun hull => (fitQuad approxPolyDP hull).quad)

/-! ### The area filter as the specification words it

The definitions below follow the words of the header documentation (ContourFinder.h, lines 10 to
14), to be compared with `findContours` above.  They use none of its definitions. -/

/-- Specification side: the bracket `[minEpsilon, maxEpsilon]` and the epsilon to try next. -/
structure SpecBracket where
  minEpsilon : ℚ
  maxEpsilon : Flt
  epsilon : ℚ

/-- Specification side, the bracket update rule for a simplification at `b.epsilon` that has
`count` points.  More than 4 points: `minEpsilon := epsilon`, and the next epsilon is twice the
epsilon while `maxEpsilon` is infinite, else the midpoint of the bracket.  Fewer than 4 points:
`maxEpsilon := epsilon`, and the next epsilon is the midpoint of the bracket.  Exactly 4
points: the search stops, the bracket is kept. -/
def specUpdate (count : Nat) (b : SpecBracket) : SpecBracket :=
  if 4 < count then
    match b.maxEpsilon with
    | Flt.inf => { minEpsilon := b.epsilon, maxEpsilon := Flt.inf, epsilon := 2 * b.epsilon }
    | Flt.fin hi =>
        { minEpsilon := b.epsilon, maxEpsilon := Flt.fin hi, epsilon := (b.epsilon + hi) / 2 }
  else if count < 4 then
    { minEpsilon := b.minEpsilon, maxEpsilon := Flt.fin b.epsilon,
      epsilon := (b.minEpsilon + b.epsilon) / 2 }
  else b

/-- Specification side: the bracket after `k` updates, starting from `minEpsilon = 0`,
`maxEpsilon = +infinity` and epsilon `16`. -/
def specBracket (simplify : Contour → ℚ → Contour) (hull : Contour) : Nat → SpecBracket
  | 0 => { minEpsilon := 0, maxEpsilon := Flt.inf, epsilon := 16 }
  | k + 1 =>
      specUpdate (simplify hull (specBracket simplify hull k).epsilon).length
        (specBracket simplify hull k)

/-- Specification side: the epsilon `e_j` of the `j`-th simplification, for `j ≥ 1`; `e_1 = 16`. -/
def specEpsilon (simplify : Contour → ℚ → Contour) (hull : Contour) (j : Nat) : ℚ :=
  (specBracket simplify hull (j - 1)).epsilon

/-- The locals of the code hold the bracket `b` of the specification. -/
def AgreesWith (s : QuadSearch) (b : SpecBracket) : Prop :=
  s.minEpsilon = b.minEpsilon ∧ s.maxEpsilon = b.maxEpsilon ∧ s.curEpsilon = b.epsilon

/-- The log and the quad agree: the quad is the simplification at the most recent epsilon. -/
def QuadOfLast (approxPolyDP : Contour → ℚ → Contour) (hull : Contour) (s : QuadSearch) : Prop :=
  ∀ e, s.calls.head? = some e → s.quad = approxPolyDP hull e

/-- The bracket invariant of the search: `0 ≤ minEpsilon < curEpsilon`, and `curEpsilon` lies
below `maxEpsilon` once that is finite. -/
def BracketInv (s : QuadSearch) : Prop :=
  0 ≤ s.minEpsilon ∧ s.minEpsilon < s.curEpsilon ∧
    ∀ M, s.maxEpsilon = Flt.fin M → s.curEpsilon < M

/-- The value `e` lies in the closed bracket of `s`. -/
def InBracket (s : QuadSearch) (e : ℚ) : Prop :=
  s.minEpsilon ≤ e ∧ ∀ M, s.maxEpsilon = Flt.fin M → e ≤ M

/-! ## Sample inputs -/

/-- A square with one more point in the middle of its lower edge: 5 points. -/
def sampleHull : Contour :=
  [(0, 0), (2, 0), (4, 0), (4, 4), (0, 4)]

/-- A triangle: 3 points. -/
def sampleTriangle : Contour :=
  [(0, 0), (4, 0), (0, 4)]

/-- A hexagon: 6 points. -/
def sampleHexagon : Contour :=
  [(0, 1), (1, 0), (3, 0), (4, 1), (3, 2), (1, 2)]

/-- A simplification that drops the second point of the polygon, whatever the epsilon. -/
def dropSecond : Contour → ℚ → Contour :=
  fun hull _ => hull.eraseIdx 1

/-- A simplification that is always too aggressive: it returns no point. -/
def collapse : Contour → ℚ → Contour :=
  fun _ _ => []

/-- Insertion of `x` into a list of indices, before the first index that `x` compares before. -/
def insertByCompare (cmp : Nat → Nat → Option Bool) (x : Nat) : List Nat → List Nat
  | [] => [x]
  | y :: ys => if cmp x y = some true then x :: y :: ys else y :: insertByCompare cmp x ys

/-- An insertion sort, as one function that meets the contract of `std::sort`. -/
def insertionSortBy (cmp : Nat → Nat → Option Bool) : List Nat → List Nat
  | [] => []
  | x :: xs => insertByCompare cmp x (insertionSortBy cmp xs)

/-- A contour area for the samples: the number of points. -/
def pointCount : Contour → ℚ :=
  fun c => (c.length : ℚ)

/-- A bounding rectangle for the samples: a fixed 3 by 3 box at the origin. -/
def fixedBox : Contour → Rect :=
  fun _ => { x := 0, y := 0, width := 3, height := 3 }

/-- Three extracted contours with 1, 4 and 3 points. -/
def sampleContours : List Contour :=
  [[(5, 5)], [(0, 0), (2, 0), (2, 2), (0, 2)], [(7, 7), (8, 7), (8, 8)]]

/-- A 10 by 10 image. -/
def sampleMat : Mat :=
  { rows := 10, cols := 10 }

/-- An object that stores one square contour, with its 3 by 3 bounding box. -/
def sampleFinder : ContourFinder :=
  { ContourFinder.new with
    contours := [[(0, 0), (2, 0), (2, 2), (0, 2)]]
    boundingRects := [{ x := 0, y := 0, width := 3, height := 3 }] }

/-! ## Lemmas on the loop body -/

theorem quadLoopBody_eq (approx : Contour → ℚ → Contour) (hull : Contour) (s : QuadSearch)
    (h : (approx hull s.curEpsilon).length = 4) :
    quadLoopBody approx hull s =
      ({ s with quad := approx hull s.curEpsilon, calls := s.curEpsilon :: s.calls }, true) := by
  simp [quadLoopBody, targetPoints, h]

theorem quadLoopBody_gt (approx : Contour → ℚ → Contour) (hull : Contour) (s : QuadSearch)
    (h : 4 < (approx hull s.curEpsilon).length) :
    quadLoopBody approx hull s =
      ({ minEpsilon := s.curEpsilon
         maxEpsilon := s.maxEpsilon
         curEpsilon := (match s.maxEpsilon with
                        | Flt.inf => s.curEpsilon * 2
                        | Flt.fin maxEps => (maxEps + s.curEpsilon) / 2)
         quad := approx hull s.curEpsilon
         calls := s.curEpsilon :: s.calls }, false) := by
  have h1 : (approx hull s.curEpsilon).length ≠ 4 := by omega
  have h2 : ¬ (approx hull s.curEpsilon).length < 4 := by omega
  cases hm : s.maxEpsilon <;> simp [quadLoopBody, targetPoints, h, h1, h2, hm]

theorem quadLoopBody_lt (approx : Contour → ℚ → Contour) (hull : Contour) (s : QuadSearch)
    (h : (approx hull s.curEpsilon).length < 4) :
    quadLoopBody approx hull s =
      ({ minEpsilon := s.minEpsilon
         maxEpsilon := Flt.fin s.curEpsilon
         curEpsilon := (s.curEpsilon + s.minEpsilon) / 2
         quad := approx hull s.curEpsilon
         calls := s.curEpsilon :: s.calls }, false) := by
  have h1 : (approx hull s.curEpsilon).length ≠ 4 := by omega
  have h2 : ¬ 4 < (approx hull s.curEpsilon).length := by omega
  simp [quadLoopBody, targetPoints, h, h1, h2]

theorem quadLoop_succ (approx : Contour → ℚ → Contour) (hull : Contour) (n : Nat)
    (s : QuadSearch) :
    quadLoop approx hull (n + 1) s =
      if (quadLoopBody approx hull s).2 = true then (quadLoopBody approx hull s).1
      else quadLoop approx hull n (quadLoopBody approx hull s).1 := by
  rw [quadLoop]
  rcases hb : quadLoopBody approx hull s with ⟨s1, b⟩
  cases b <;> simp

theorem fitQuad_of_le (approx : Contour → ℚ → Contour) (hull : Contour)
    (h : hull.length ≤ 4) : fitQuad approx hull = quadInit hull := by
  have h4 : ¬ hull.length > 4 := by omega
  simp [fitQuad, h4]

/-! ## Number of simplification calls -/

theorem quadLoop_calls (approx : Contour → ℚ → Contour) (hull : Contour) :
    ∀ (n : Nat) (s : QuadSearch),
      (quadLoop approx hull n s).calls.length ≤ s.calls.length + n ∧
      ((quadLoop approx hull n s).calls.length < s.calls.length + n →
        ∃ e, (quadLoop approx hull n s).calls.head? = some e ∧ (approx hull e).length = 4) := by
  intro n
  induction n with
  | zero => intro s; simp [quadLoop]
  | succ n ih =>
    intro s
    rw [quadLoop_succ]
    rcases Nat.lt_trichotomy (approx hull s.curEpsilon).length 4 with h | h | h
    · rw [quadLoopBody_lt approx hull s h]
      simp only [Bool.false_eq_true, if_false]
      have := ih { minEpsilon := s.minEpsilon, maxEpsilon := Flt.fin s.curEpsilon,
                   curEpsilon := (s.curEpsilon + s.minEpsilon) / 2,
                   quad := approx hull s.curEpsilon, calls := s.curEpsilon :: s.calls }
      simp only [List.length_cons] at this
      constructor
      · omega
      · intro hlt; exact this.2 (by omega)
    · rw [quadLoopBody_eq approx hull s h]
      simp only [if_true, List.length_cons, List.head?_cons]
      constructor
      · omega
      · intro _; exact ⟨s.curEpsilon, rfl, h⟩
    · rw [quadLoopBody_gt approx hull s h]
      simp only [Bool.false_eq_true, if_false]
      have := ih { minEpsilon := s.curEpsilon, maxEpsilon := s.maxEpsilon,
                   curEpsilon := (match s.maxEpsilon with
                                  | Flt.inf => s.curEpsilon * 2
                                  | Flt.fin maxEps => (maxEps + s.curEpsilon) / 2),
                   quad := approx hull s.curEpsilon, calls := s.curEpsilon :: s.calls }
      simp only [List.length_cons] at this
      constructor
      · omega
      · intro hlt; exact this.2 (by omega)

/-- C1. A hull with 4 or fewer points (0, 1, 2, 3 or exactly 4) is returned by `fitQuad` as it
is, point for point and in the same order, and no simplification call is made, whatever the
simplification collaborator. -/
theorem fitQuad_small_hull (approxPolyDP : Contour → ℚ → Contour) (hull : Contour)
    (h : hull.length ≤ 4) :
    (fitQuad approxPolyDP hull).quad = hull ∧ (fitQuad approxPolyDP hull).calls = [] := by
  rw [fitQuad_of_le approxPolyDP hull h]
  exact ⟨rfl, rfl⟩

/-- C3. One call of `fitQuad` makes at most 16 simplification calls (the function is total, so
it terminates), and it makes fewer than 16 only if the hull had 4 or fewer points or the last
call returned exactly 4 points. -/
theorem fitQuad_calls_bound (approxPolyDP : Contour → ℚ → Contour) (hull : Contour) :
    (fitQuad approxPolyDP hull).calls.length ≤ 16 ∧
    ((fitQuad approxPolyDP hull).calls.length < 16 →
      hull.length ≤ 4 ∨
      ∃ e, (fitQuad approxPolyDP hull).calls.head? = some e ∧
        (approxPolyDP hull e).length = 4) := by
  by_cases h : hull.length > 4
  · have := quadLoop_calls approxPolyDP hull maxIterations (quadInit hull)
    simp only [fitQuad, h, if_true]
    simp only [quadInit, List.length_nil, maxIterations, Nat.zero_add] at this ⊢
    exact ⟨this.1, fun hlt => Or.inr (this.2 hlt)⟩
  · simp only [fitQuad, h, if_false, quadInit, List.length_nil]
    exact ⟨by omega, fun _ => Or.inl (by omega)⟩

/-! ## The bracket invariant -/

theorem bracketInv_init (hull : Contour) : BracketInv (quadInit hull) := by
  refine ⟨le_refl _, ?_, ?_⟩
  · show (0 : ℚ) < 16
    norm_num
  · intro M hM
    simp [quadInit] at hM

theorem quadLoopBody_facts (approx : Contour → ℚ → Contour) (hull : Contour) (s : QuadSearch)
    (hs : BracketInv s) :
    BracketInv (quadLoopBody approx hull s).1 ∧
    (quadLoopBody approx hull s).1.calls = s.curEpsilon :: s.calls ∧
    (quadLoopBody approx hull s).1.quad = approx hull s.curEpsilon ∧
    s.minEpsilon ≤ (quadLoopBody approx hull s).1.minEpsilon ∧
    (∀ M, s.maxEpsilon = Flt.fin M →
      ∃ M1, (quadLoopBody approx hull s).1.maxEpsilon = Flt.fin M1 ∧ M1 ≤ M ∧
        ((quadLoopBody approx hull s).2 = false →
          M1 - (quadLoopBody approx hull s).1.minEpsilon < M - s.minEpsilon)) ∧
    InBracket (quadLoopBody approx hull s).1 s.curEpsilon := by
  obtain ⟨h0, h1, h2⟩ := hs
  rcases Nat.lt_trichotomy (approx hull s.curEpsilon).length 4 with h | h | h
  · rw [quadLoopBody_lt approx hull s h]
    refine ⟨⟨h0, ?_, ?_⟩, rfl, rfl, le_refl _, ?_, ⟨le_of_lt h1, ?_⟩⟩
    · show s.minEpsilon < (s.curEpsilon + s.minEpsilon) / 2
      linarith
    · intro M hM
      simp only [Flt.fin.injEq] at hM
      subst hM
      show (s.curEpsilon + s.minEpsilon) / 2 < s.curEpsilon
      linarith
    · intro M hM
      refine ⟨s.curEpsilon, rfl, le_of_lt (h2 M hM), fun _ => ?_⟩
      have := h2 M hM
      show s.curEpsilon - s.minEpsilon < M - s.minEpsilon
      linarith
    · intro M hM
      simp only [Flt.fin.injEq] at hM
      exact le_of_eq hM
  · rw [quadLoopBody_eq approx hull s h]
    refine ⟨⟨h0, h1, h2⟩, rfl, rfl, le_refl _, ?_, ⟨le_of_lt h1, ?_⟩⟩
    · intro M hM
      exact ⟨M, hM, le_refl _, fun hf => by simp at hf⟩
    · intro M hM
      exact le_of_lt (h2 M hM)
  · rw [quadLoopBody_gt approx hull s h]
    refine ⟨⟨le_of_lt (lt_of_le_of_lt h0 h1), ?_, ?_⟩, rfl, rfl, le_of_lt h1, ?_,
      ⟨le_refl _, ?_⟩⟩
    · show s.curEpsilon < _
      cases hm : s.maxEpsilon with
      | inf =>
        show s.curEpsilon < s.curEpsilon * 2
        linarith
      | fin M =>
        have := h2 M hm
        show s.curEpsilon < (M + s.curEpsilon) / 2
        linarith
    · intro M hM
      have hM1 : s.maxEpsilon = Flt.fin M := hM
      have := h2 M hM1
      show (match s.maxEpsilon with
            | Flt.inf => s.curEpsilon * 2
            | Flt.fin maxEps => (maxEps + s.curEpsilon) / 2) < M
      rw [hM1]
      show (M + s.curEpsilon) / 2 < M
      linarith
    · intro M hM
      refine ⟨M, hM, le_refl _, fun _ => ?_⟩
      show M - s.curEpsilon < M - s.minEpsilon
      linarith
    · intro M hM
      exact le_of_lt (h2 M hM)

theorem quadLoopBody_break_iff (approx : Contour → ℚ → Contour) (hull : Contour)
    (s : QuadSearch) :
    (quadLoopBody approx hull s).2 = true ↔ (approx hull s.curEpsilon).length = 4 := by
  rcases Nat.lt_trichotomy (approx hull s.curEpsilon).length 4 with h | h | h
  · rw [quadLoopBody_lt approx hull s h]; simp; omega
  · rw [quadLoopBody_eq approx hull s h]; simp [h]
  · rw [quadLoopBody_gt approx hull s h]; simp; omega

theorem bracketInv_quadLoop (approx : Contour → ℚ → Contour) (hull : Contour) :
    ∀ (n : Nat) (s : QuadSearch), BracketInv s → BracketInv (quadLoop approx hull n s) := by
  intro n
  induction n with
  | zero => intro s hs; simpa [quadLoop] using hs
  | succ n ih =>
    intro s hs
    rw [quadLoop_succ]
    have hb := (quadLoopBody_facts approx hull s hs).1
    split
    · exact hb
    · exact ih _ hb

theorem quadLoop_width (approx : Contour → ℚ → Contour) (hull : Contour) :
    ∀ (n : Nat) (s : QuadSearch), BracketInv s →
      ∀ M, (quadLoop approx hull n s).maxEpsilon = Flt.fin M →
        (quadLoop approx hull (n + 1) s).quad.length ≠ 4 →
        ∃ M1, (quadLoop approx hull (n + 1) s).maxEpsilon = Flt.fin M1 ∧
          M1 - (quadLoop approx hull (n + 1) s).minEpsilon <
            M - (quadLoop approx hull n s).minEpsilon := by
  intro n
  induction n with
  | zero =>
    intro s hs M hM hq
    have hf := quadLoopBody_facts approx hull s hs
    have hbrk := quadLoopBody_break_iff approx hull s
    rw [quadLoop_succ] at hq ⊢
    simp only [quadLoop] at hM hq ⊢
    have hnb : (quadLoopBody approx hull s).2 = false := by
      by_contra hc
      have ht : (quadLoopBody approx hull s).2 = true := by simpa using hc
      rw [if_pos ht, hf.2.2.1] at hq
      exact hq (hbrk.1 ht)
    simp only [hnb, Bool.false_eq_true, if_false]
    obtain ⟨M1, h1, _, h3⟩ := hf.2.2.2.2.1 M hM
    exact ⟨M1, h1, h3 hnb⟩
  | succ n ih =>
    intro s hs M hM hq
    have hf := quadLoopBody_facts approx hull s hs
    have hbrk := quadLoopBody_break_iff approx hull s
    rw [quadLoop_succ approx hull (n + 1) s] at hq ⊢
    rw [quadLoop_succ approx hull n s] at hM ⊢
    by_cases ht : (quadLoopBody approx hull s).2 = true
    · rw [if_pos ht, hf.2.2.1] at hq
      exact absurd (hbrk.1 ht) hq
    · simp only [if_neg ht] at hq hM ⊢
      exact ih _ hf.1 M hM hq

/-- C4. In the search of `fitQuad`, over rational arithmetic and whatever vertex counts the
simplification returns: let `s k` be the locals after `k` iterations.  Once `maxEpsilon` is
finite (`s k` has `maxEpsilon = M`), `minEpsilon ≤ maxEpsilon` holds, and if iteration `k + 1`
does not stop with 4 points, it leaves a finite `maxEpsilon` and a strictly smaller width
`maxEpsilon - minEpsilon`. -/
theorem quadSearch_bracket_narrows (approxPolyDP : Contour → ℚ → Contour) (hull : Contour)
    (k : Nat) (M : ℚ)
    (hM : (quadLoop approxPolyDP hull k (quadInit hull)).maxEpsilon = Flt.fin M) :
    (quadLoop approxPolyDP hull k (quadInit hull)).minEpsilon ≤ M ∧
    ((quadLoop approxPolyDP hull (k + 1) (quadInit hull)).quad.length ≠ 4 →
      ∃ M1, (quadLoop approxPolyDP hull (k + 1) (quadInit hull)).maxEpsilon = Flt.fin M1 ∧
        (quadLoop approxPolyDP hull (k + 1) (quadInit hull)).minEpsilon ≤ M1 ∧
        M1 - (quadLoop approxPolyDP hull (k + 1) (quadInit hull)).minEpsilon <
          M - (quadLoop approxPolyDP hull k (quadInit hull)).minEpsilon) := by
  have hinv := bracketInv_quadLoop approxPolyDP hull k _ (bracketInv_init hull)
  refine ⟨le_of_lt (lt_trans hinv.2.1 (hinv.2.2 M hM)), fun hq => ?_⟩
  obtain ⟨M1, h1, h2⟩ := quadLoop_width approxPolyDP hull k _ (bracketInv_init hull) M hM hq
  have hinv1 := bracketInv_quadLoop approxPolyDP hull (k + 1) _ (bracketInv_init hull)
  exact ⟨M1, h1, le_of_lt (lt_trans hinv1.2.1 (hinv1.2.2 M1 h1)), h2⟩

/-! ## The last epsilon passed to the simplification -/

theorem inBracket_quadLoop (approx : Contour → ℚ → Contour) (hull : Contour) :
    ∀ (n : Nat) (s : QuadSearch) (e0 : ℚ), BracketInv s → s.calls.head? = some e0 →
      InBracket s e0 →
      ∃ e, (quadLoop approx hull n s).calls.head? = some e ∧ InBracket s e := by
  intro n
  induction n with
  | zero => intro s e0 _ h0 hb; exact ⟨e0, by simpa [quadLoop] using h0, hb⟩
  | succ n ih =>
    intro s e0 hs _ _
    have hf := quadLoopBody_facts approx hull s hs
    rw [quadLoop_succ]
    have hmono : ∀ e, InBracket (quadLoopBody approx hull s).1 e → InBracket s e := by
      intro e he
      refine ⟨le_trans hf.2.2.2.1 he.1, fun M hM => ?_⟩
      obtain ⟨M1, h1, h2, _⟩ := hf.2.2.2.2.1 M hM
      exact le_trans (he.2 M1 h1) h2
    split
    · exact ⟨s.curEpsilon, by rw [hf.2.1]; rfl, hmono _ hf.2.2.2.2.2⟩
    · obtain ⟨e, he1, he2⟩ := ih _ s.curEpsilon hf.1 (by rw [hf.2.1]; rfl) hf.2.2.2.2.2
      exact ⟨e, he1, hmono _ he2⟩

theorem quadLoop_last_le (approx : Contour → ℚ → Contour) (hull : Contour) (n : Nat)
    (s : QuadSearch) (hs : BracketInv s) (h : (approx hull s.curEpsilon).length ≤ 4) :
    ∃ e, (quadLoop approx hull (n + 1) s).calls.head? = some e ∧ e ≤ s.curEpsilon := by
  rw [quadLoop_succ]
  rcases Nat.lt_or_eq_of_le h with h | h
  · rw [quadLoopBody_lt approx hull s h]
    simp only [Bool.false_eq_true, if_false]
    have hf := quadLoopBody_facts approx hull s hs
    rw [quadLoopBody_lt approx hull s h] at hf
    obtain ⟨e, he1, he2⟩ := inBracket_quadLoop approx hull n _ s.curEpsilon hf.1 rfl hf.2.2.2.2.2
    exact ⟨e, he1, he2.2 s.curEpsilon rfl⟩
  · rw [quadLoopBody_eq approx hull s h]
    exact ⟨s.curEpsilon, by simp, le_refl _⟩

theorem quadLoop_last_ge (approx : Contour → ℚ → Contour) (hull : Contour) (n : Nat)
    (s : QuadSearch) (hs : BracketInv s) (h : 4 ≤ (approx hull s.curEpsilon).length) :
    ∃ e, (quadLoop approx hull (n + 1) s).calls.head? = some e ∧ s.curEpsilon ≤ e := by
  rw [quadLoop_succ]
  rcases Nat.lt_or_eq_of_le h with h | h
  · rw [quadLoopBody_gt approx hull s h]
    simp only [Bool.false_eq_true, if_false]
    have hf := quadLoopBody_facts approx hull s hs
    rw [quadLoopBody_gt approx hull s h] at hf
    obtain ⟨e, he1, he2⟩ := inBracket_quadLoop approx hull n _ s.curEpsilon hf.1 rfl hf.2.2.2.2.2
    exact ⟨e, he1, he2.1⟩
  · rw [quadLoopBody_eq approx hull s h.symm]
    exact ⟨s.curEpsilon, by simp, le_refl _⟩

theorem quadLoop_last_mono (approx : Contour → ℚ → Contour) (A B : Contour)
    (hAB : ∀ e, (approx A e).length ≤ (approx B e).length) :
    ∀ (n : Nat) (sA sB : QuadSearch), BracketInv sA → BracketInv sB →
      sA.minEpsilon = sB.minEpsilon → sA.maxEpsilon = sB.maxEpsilon →
      sA.curEpsilon = sB.curEpsilon →
      ∃ eA eB, (quadLoop approx A (n + 1) sA).calls.head? = some eA ∧
        (quadLoop approx B (n + 1) sB).calls.head? = some eB ∧ eA ≤ eB := by
  intro n
  induction n with
  | zero =>
    intro sA sB hA hB _ _ hcur
    refine ⟨sA.curEpsilon, sB.curEpsilon, ?_, ?_, le_of_eq hcur⟩
    · rw [quadLoop_succ]
      simp only [quadLoop, ite_self]
      rw [(quadLoopBody_facts approx A sA hA).2.1]; rfl
    · rw [quadLoop_succ]
      simp only [quadLoop, ite_self]
      rw [(quadLoopBody_facts approx B sB hB).2.1]; rfl
  | succ n ih =>
    intro sA sB hA hB hmin hmax hcur
    have hab := hAB sA.curEpsilon
    by_cases hlt : (approx B sB.curEpsilon).length < 4
    · -- both simplifications have fewer than 4 points
      have hltA : (approx A sA.curEpsilon).length < 4 := by rw [← hcur] at hlt; omega
      have hfA := quadLoopBody_facts approx A sA hA
      have hfB := quadLoopBody_facts approx B sB hB
      rw [quadLoop_succ approx A, quadLoop_succ approx B]
      rw [quadLoopBody_lt approx A sA hltA] at hfA ⊢
      rw [quadLoopBody_lt approx B sB hlt] at hfB ⊢
      simp only [Bool.false_eq_true, if_false]
      exact ih _ _ hfA.1 hfB.1 hmin (by rw [hcur]) (by simp only [hcur, hmin])
    · by_cases hgt : 4 < (approx A sA.curEpsilon).length
      · -- both simplifications have more than 4 points
        have hgtB : 4 < (approx B sB.curEpsilon).length := by rw [← hcur]; omega
        have hfA := quadLoopBody_facts approx A sA hA
        have hfB := quadLoopBody_facts approx B sB hB
        rw [quadLoop_succ approx A, quadLoop_succ approx B]
        rw [quadLoopBody_gt approx A sA hgt] at hfA ⊢
        rw [quadLoopBody_gt approx B sB hgtB] at hfB ⊢
        simp only [Bool.false_eq_true, if_false]
        exact ih _ _ hfA.1 hfB.1 hcur hmax (by simp only [hcur, hmax])
      · -- the searches part here: A stays at or below this epsilon, B at or above it
        obtain ⟨eA, hA1, hA2⟩ := quadLoop_last_le approx A (n + 1) sA hA (by omega)
        obtain ⟨eB, hB1, hB2⟩ := quadLoop_last_ge approx B (n + 1) sB hB (by omega)
        exact ⟨eA, eB, hA1, hB1, le_trans hA2 (hcur ▸ hB2)⟩

theorem quadOfLast_init (approx : Contour → ℚ → Contour) (hull : Contour) :
    QuadOfLast approx hull (quadInit hull) := by
  intro e he
  simp [quadInit] at he

theorem quadOfLast_body (approx : Contour → ℚ → Contour) (hull : Contour) (s : QuadSearch) :
    QuadOfLast approx hull (quadLoopBody approx hull s).1 := by
  intro e he
  rcases Nat.lt_trichotomy (approx hull s.curEpsilon).length 4 with h | h | h
  · rw [quadLoopBody_lt approx hull s h] at he ⊢
    simp only [List.head?_cons, Option.some.injEq] at he
    rw [← he]
  · rw [quadLoopBody_eq approx hull s h] at he ⊢
    simp only [List.head?_cons, Option.some.injEq] at he
    rw [← he]
  · rw [quadLoopBody_gt approx hull s h] at he ⊢
    simp only [List.head?_cons, Option.some.injEq] at he
    rw [← he]

theorem quadOfLast_quadLoop (approx : Contour → ℚ → Contour) (hull : Contour) :
    ∀ (n : Nat) (s : QuadSearch), QuadOfLast approx hull s →
      QuadOfLast approx hull (quadLoop approx hull n s) := by
  intro n
  induction n with
  | zero => intro s hs; simpa [quadLoop] using hs
  | succ n ih =>
    intro s _
    rw [quadLoop_succ]
    split
    · exact quadOfLast_body approx hull s
    · exact ih _ (quadOfLast_body approx hull s)

/-- C5. Monotonicity of the returned epsilon: if hulls `A` and `B` both have more than 4 points
and at every epsilon the simplification of `A` has no more vertices than that of `B`, then the
last epsilon `fitQuad` passes to the simplification for `A` (the one whose result it returns) is
at most the one for `B`. -/
theorem fitQuad_epsilon_mono (approxPolyDP : Contour → ℚ → Contour) (A B : Contour)
    (hA : 4 < A.length) (hB : 4 < B.length)
    (hAB : ∀ e, (approxPolyDP A e).length ≤ (approxPolyDP B e).length) :
    ∃ eA eB, (fitQuad approxPolyDP A).calls.head? = some eA ∧
      (fitQuad approxPolyDP A).quad = approxPolyDP A eA ∧
      (fitQuad approxPolyDP B).calls.head? = some eB ∧
      (fitQuad approxPolyDP B).quad = approxPolyDP B eB ∧ eA ≤ eB := by
  obtain ⟨eA, eB, h1, h2, h3⟩ :=
    quadLoop_last_mono approxPolyDP A B hAB 15 (quadInit A) (quadInit B)
      (bracketInv_init A) (bracketInv_init B) rfl rfl rfl
  have hqA := quadOfLast_quadLoop approxPolyDP A 16 (quadInit A) (quadOfLast_init approxPolyDP A)
  have hqB := quadOfLast_quadLoop approxPolyDP B 16 (quadInit B) (quadOfLast_init approxPolyDP B)
  have hfA : fitQuad approxPolyDP A = quadLoop approxPolyDP A 16 (quadInit A) := by
    simp [fitQuad, hA, maxIterations]
  have hfB : fitQuad approxPolyDP B = quadLoop approxPolyDP B 16 (quadInit B) := by
    simp [fitQuad, hB, maxIterations]
  rw [hfA, hfB]
  exact ⟨eA, eB, h1, hqA eA h1, h2, hqB eB h2, h3⟩

/-! ## The code against the specification's epsilon sequence -/

theorem specEpsilon_succ (approx : Contour → ℚ → Contour) (hull : Contour) (k : Nat) :
    specEpsilon approx hull (k + 1) = (specBracket approx hull k).epsilon := by
  simp [specEpsilon]

theorem agreesWith_body (approx : Contour → ℚ → Contour) (hull : Contour) (s : QuadSearch)
    (b : SpecBracket) (hab : AgreesWith s b) (h4 : (approx hull s.curEpsilon).length ≠ 4) :
    (quadLoopBody approx hull s).2 = false ∧
    AgreesWith (quadLoopBody approx hull s).1 (specUpdate (approx hull s.curEpsilon).length b) := by
  obtain ⟨h1, h2, h3⟩ := hab
  rcases Nat.lt_trichotomy (approx hull s.curEpsilon).length 4 with h | h | h
  · rw [quadLoopBody_lt approx hull s h]
    have hn : ¬ 4 < (approx hull s.curEpsilon).length := by omega
    refine ⟨rfl, ?_⟩
    simp only [specUpdate, hn, h, if_false, if_true]
    refine ⟨h1, by rw [h3], ?_⟩
    show (s.curEpsilon + s.minEpsilon) / 2 = (b.minEpsilon + b.epsilon) / 2
    rw [h1, h3, add_comm]
  · exact absurd h h4
  · rw [quadLoopBody_gt approx hull s h]
    refine ⟨rfl, ?_⟩
    simp only [specUpdate, h, if_true]
    cases hm : b.maxEpsilon with
    | inf =>
      rw [hm] at h2
      refine ⟨h3, h2, ?_⟩
      show (match s.maxEpsilon with
            | Flt.inf => s.curEpsilon * 2
            | Flt.fin maxEps => (maxEps + s.curEpsilon) / 2) = 2 * b.epsilon
      rw [h2, h3]
      show b.epsilon * 2 = 2 * b.epsilon
      rw [mul_comm]
    | fin hi =>
      rw [hm] at h2
      refine ⟨h3, h2, ?_⟩
      show (match s.maxEpsilon with
            | Flt.inf => s.curEpsilon * 2
            | Flt.fin maxEps => (maxEps + s.curEpsilon) / 2) = (b.epsilon + hi) / 2
      rw [h2, h3]
      show (hi + b.epsilon) / 2 = (b.epsilon + hi) / 2
      rw [add_comm]

theorem quadLoop_refines (approx : Contour → ℚ → Contour) (hull : Contour) :
    ∀ (n k : Nat) (s : QuadSearch), AgreesWith s (specBracket approx hull k) →
      ∃ j, k < j ∧ j ≤ k + n + 1 ∧
        (quadLoop approx hull (n + 1) s).quad = approx hull (specEpsilon approx hull j) ∧
        (∀ i, k < i → i < j → (approx hull (specEpsilon approx hull i)).length ≠ 4) ∧
        ((approx hull (specEpsilon approx hull j)).length = 4 ∨ j = k + n + 1) := by
  intro n
  induction n with
  | zero =>
    intro k s hs
    refine ⟨k + 1, by omega, by omega, ?_, fun i h1 h2 => by omega, Or.inr rfl⟩
    rw [quadLoop_succ]
    simp only [quadLoop, ite_self]
    rw [quadOfLast_body approx hull s s.curEpsilon (by
      rcases Nat.lt_trichotomy (approx hull s.curEpsilon).length 4 with h | h | h
      · rw [quadLoopBody_lt approx hull s h]; rfl
      · rw [quadLoopBody_eq approx hull s h]; rfl
      · rw [quadLoopBody_gt approx hull s h]; rfl)]
    rw [specEpsilon_succ, hs.2.2]
  | succ n ih =>
    intro k s hs
    have hcur : specEpsilon approx hull (k + 1) = s.curEpsilon := by
      rw [specEpsilon_succ, hs.2.2]
    by_cases h4 : (approx hull s.curEpsilon).length = 4
    · refine ⟨k + 1, by omega, by omega, ?_, fun i h1 h2 => by omega, Or.inl (by rw [hcur, h4])⟩
      rw [quadLoop_succ, quadLoopBody_eq approx hull s h4, hcur]
      simp
    · obtain ⟨hnb, hag⟩ := agreesWith_body approx hull s _ hs h4
      rw [hs.2.2] at hag
      obtain ⟨j, hj1, hj2, hj3, hj4, hj5⟩ := ih (k + 1) _ hag
      refine ⟨j, by omega, by omega, ?_, ?_, ?_⟩
      · rw [quadLoop_succ]
        simp only [hnb, Bool.false_eq_true, if_false]
        exact hj3
      · intro i hi1 hi2
        by_cases hik : i = k + 1
        · rw [hik, hcur]; exact h4
        · exact hj4 i (by omega) hi2
      · rcases hj5 with h | h
        · exact Or.inl h
        · exact Or.inr (by omega)

/-- C2. For a hull with more than 4 points, `fitQuad` returns `simplify(hull, e_j)`, where
`e_1 = 16`, each `e_(k+1)` comes from `e_k` by the bracket update rule of the specification, and
`j` is the least index in `1..16` at which the simplification has exactly 4 points, or `16` when
there is none: no earlier `e_i` gives 4 points, and either `e_j` does or `j = 16`.  On
non-convergence the result is the 16th simplification. -/
theorem fitQuad_refines_spec (approxPolyDP : Contour → ℚ → Contour) (hull : Contour)
    (h : 4 < hull.length) :
    ∃ j, 1 ≤ j ∧ j ≤ 16 ∧
      (fitQuad approxPolyDP hull).quad = approxPolyDP hull (specEpsilon approxPolyDP hull j) ∧
      (∀ i, 1 ≤ i → i < j → (approxPolyDP hull (specEpsilon approxPolyDP hull i)).length ≠ 4) ∧
      ((approxPolyDP hull (specEpsilon approxPolyDP hull j)).length = 4 ∨ j = 16) := by
  obtain ⟨j, h1, h2, h3, h4, h5⟩ :=
    quadLoop_refines approxPolyDP hull 15 0 (quadInit hull) ⟨rfl, rfl, rfl⟩
  have hf : fitQuad approxPolyDP hull = quadLoop approxPolyDP hull 16 (quadInit hull) := by
    simp [fitQuad, h, maxIterations]
  rw [hf]
  exact ⟨j, by omega, by omega, h3, fun i hi1 hi2 => h4 i (by omega) hi2, by
    rcases h5 with h | h
    · exact Or.inl h
    · exact Or.inr (by omega)⟩

/-- C6. Idempotence: when `fitQuad` returns exactly 4 points, applying `fitQuad` to that result
returns the same 4 points in the same order. -/
theorem fitQuad_idempotent (approxPolyDP : Contour → ℚ → Contour) (hull : Contour)
    (h : (fitQuad approxPolyDP hull).quad.length = 4) :
    (fitQuad approxPolyDP (fitQuad approxPolyDP hull).quad).quad =
      (fitQuad approxPolyDP hull).quad := by
  rw [fitQuad_of_le approxPolyDP (fitQuad approxPolyDP hull).quad (le_of_eq h)]
  rfl

/-! ## `getFitEllipse` and `getCenter` -/

/-- C7. For a stored contour `i`, `getFitEllipse(i)` returns the minimum-area rectangle of the
contour, which is also the value of `getMinAreaRect(i)`, when the contour has fewer than 5
points, with no call of the ellipse fit, and the ellipse fit of the contour when it has 5 or more
points; no contour passed to the ellipse fit has fewer than 5 points. -/
theorem getFitEllipse_fallback {R : Type} (minAreaRect fitEllipse : Contour → R)
    (cf : ContourFinder) (i : Nat) (hi : i < cf.contours.length) :
    ∃ c, cf.contours[i]? = some c ∧
      (c.length < 5 →
        getMinAreaRect minAreaRect cf i = some (minAreaRect c) ∧
          getFitEllipse minAreaRect fitEllipse cf i = some (minAreaRect c, [])) ∧
      (5 ≤ c.length →
        getFitEllipse minAreaRect fitEllipse cf i = some (fitEllipse c, [c])) ∧
      (∀ r calls, getFitEllipse minAreaRect fitEllipse cf i = some (r, calls) →
        ∀ c1 ∈ calls, 5 ≤ c1.length) := by
  refine ⟨cf.contours[i], List.getElem?_eq_getElem hi, ?_, ?_, ?_⟩
  · intro hlt
    refine ⟨?_, ?_⟩
    · simp [getMinAreaRect, List.getElem?_eq_getElem hi]
    · simp [getFitEllipse, getMinAreaRect, List.getElem?_eq_getElem hi, hlt]
  · intro hge
    have hn : ¬ cf.contours[i].length < 5 := by omega
    simp [getFitEllipse, List.getElem?_eq_getElem hi, hn]
  · intro r calls hres c1 hc1
    by_cases hlt : cf.contours[i].length < 5
    · simp [getFitEllipse, getMinAreaRect, List.getElem?_eq_getElem hi, hlt] at hres
      rw [hres.2] at hc1
      simp at hc1
    · simp [getFitEllipse, List.getElem?_eq_getElem hi, hlt] at hres
      rw [← hres.2] at hc1
      simp only [List.mem_singleton] at hc1
      rw [hc1]
      omega

/-! ## `findContours` -/

theorem filterLoop_eq (area : Contour → ℚ) (cf : ContourFinder) (src : Mat) :
    ∀ (cs : List Contour) (i : Nat) (idx : List Nat) (ars : List ℚ),
      filterLoop area cf src i cs (idx, ars) =
        (idx ++ ((cs.enumFrom i).filter
            (fun p => passesAreaFilter cf src (area p.2))).map Prod.fst,
         ars ++ cs.map area) := by
  intro cs
  induction cs with
  | nil => intro i idx ars; simp [filterLoop]
  | cons c rest ih =>
    intro i idx ars
    simp only [filterLoop]
    split <;> rename_i h <;> rw [ih] <;> simp [List.enumFrom_cons, List.filter_cons, h]

theorem plainLoop_eq (area : Contour → ℚ) (cf : ContourFinder) :
    ∀ (cs : List Contour) (i : Nat) (idx : List Nat) (ars : List ℚ),
      plainLoop area cf i cs (idx, ars) =
        (idx ++ (cs.enumFrom i).map Prod.fst,
         if cf.sortBySize then ars ++ cs.map area else ars) := by
  intro cs
  induction cs with
  | nil => intro i idx ars; simp [plainLoop]
  | cons c rest ih =>
    intro i idx ars
    simp only [plainLoop]
    rw [ih]
    cases cf.sortBySize <;> simp [List.enumFrom_cons]

theorem passesAreaFilter_of_no_filter (cf : ContourFinder) (src : Mat) (a : ℚ)
    (h : (needMinFilter cf || needMaxFilter cf) = false) : passesAreaFilter cf src a = true := by
  simp only [Bool.or_eq_false_iff] at h
  simp [passesAreaFilter, h.1, h.2]

theorem filterContours_fst (area : Contour → ℚ) (cf : ContourFinder) (src : Mat)
    (cs : List Contour) :
    (filterContours area cf src cs).1 =
      ((cs.enumFrom 0).filter (fun p => passesAreaFilter cf src (area p.2))).map Prod.fst := by
  unfold filterContours
  cases h : (needMinFilter cf || needMaxFilter cf)
  · simp only [Bool.false_eq_true, if_false, plainLoop_eq, List.nil_append]
    congr 1
    symm
    rw [List.filter_eq_self]
    intro p _
    exact passesAreaFilter_of_no_filter cf src _ h
  · simp only [if_true, filterLoop_eq, List.nil_append]

theorem filterContours_snd (area : Contour → ℚ) (cf : ContourFinder) (src : Mat)
    (cs : List Contour) (hs : cf.sortBySize = true) :
    (filterContours area cf src cs).2 = cs.map area := by
  unfold filterContours
  cases h : (needMinFilter cf || needMaxFilter cf)
  · simp [plainLoop_eq, hs]
  · simp [filterLoop_eq]

theorem mem_filterContours_fst (area : Contour → ℚ) (cf : ContourFinder) (src : Mat)
    (cs : List Contour) (i : Nat) (hi : i ∈ (filterContours area cf src cs).1) :
    i < cs.length := by
  rw [filterContours_fst] at hi
  simp only [List.mem_map, List.mem_filter] at hi
  obtain ⟨p, ⟨hp, _⟩, rfl⟩ := hi
  simpa using List.fst_lt_add_of_mem_enumFrom hp

theorem storeLoop_eq (cs : List Contour) :
    ∀ (idx : List Nat), (∀ i ∈ idx, i < cs.length) →
      storeLoop cs idx = some (idx.map (fun i => cs.getD i [])) := by
  intro idx
  induction idx with
  | nil => intro _; rfl
  | cons i rest ih =>
    intro h
    have hi : i < cs.length := h i (List.mem_cons_self _ _)
    have hrest := ih (fun j hj => h j (List.mem_cons_of_mem _ hj))
    simp only [storeLoop, hrest, List.getElem?_eq_getElem hi, List.map_cons,
      List.getD_eq_getElem cs [] hi]

theorem map_getD_filterContours (area : Contour → ℚ) (cf : ContourFinder) (src : Mat)
    (cs : List Contour) :
    (filterContours area cf src cs).1.map (fun i => cs.getD i []) =
      cs.filter (fun c => passesAreaFilter cf src (area c)) := by
  rw [filterContours_fst, List.map_map]
  have h1 : ∀ p ∈ (cs.enumFrom 0).filter (fun p => passesAreaFilter cf src (area p.2)),
      ((fun i => cs.getD i []) ∘ Prod.fst) p = Prod.snd p := by
    intro p hp
    have hp1 := (List.mem_filter.1 hp).1
    obtain ⟨i, c⟩ := p
    obtain ⟨_, h2, h3⟩ := List.mem_enumFrom hp1
    simp only [Nat.zero_add] at h2
    simp only [Function.comp, List.getD_eq_getElem cs [] h2, h3, Nat.sub_zero]
  rw [List.map_congr_left h1]
  have h2 : (fun p : Nat × Contour => passesAreaFilter cf src (area p.2)) =
      (fun c => passesAreaFilter cf src (area c)) ∘ Prod.snd := rfl
  rw [h2, ← List.filter_map, List.enumFrom_map_snd]

theorem compareContourArea_map (area : Contour → ℚ) (cs : List Contour) (a b : Nat)
    (ha : a < cs.length) (hb : b < cs.length) :
    CompareContourArea (cs.map area) a b =
      some (decide (area (cs.getD a []) > area (cs.getD b []))) := by
  have h1 : (cs.map area)[a]? = some (area (cs.getD a [])) := by
    rw [List.getElem?_map, List.getElem?_eq_getElem ha, List.getD_eq_getElem cs [] ha]
    rfl
  have h2 : (cs.map area)[b]? = some (area (cs.getD b [])) := by
    rw [List.getElem?_map, List.getElem?_eq_getElem hb, List.getD_eq_getElem cs [] hb]
    rfl
  simp only [CompareContourArea, h1, h2]

theorem sortIndices_spec (stdSort : (Nat → Nat → Option Bool) → List Nat → List Nat)
    (hsort : SortContract stdSort) (cf : ContourFinder) (idx : List Nat) (areas : List ℚ)
    (hs : cf.sortBySize = true)
    (hr : ∀ a ∈ idx, ∀ b ∈ idx, (CompareContourArea areas a b).isSome = true) :
    (sortIndices stdSort cf idx areas).Perm idx ∧
    (sortIndices stdSort cf idx areas).Pairwise
      (fun x y => CompareContourArea areas y x = some false) := by
  unfold sortIndices
  by_cases hl : idx.length > 1
  · simp only [hl, hs, decide_True, Bool.and_self, if_true]
    exact hsort areas idx hr
  · simp only [hl, decide_False, Bool.false_and, Bool.false_eq_true, if_false]
    refine ⟨List.Perm.refl _, ?_⟩
    match idx, hl with
    | [], _ => exact List.Pairwise.nil
    | [a], _ => exact List.pairwise_singleton _ _
    | _ :: _ :: _, hl => simp at hl

/-- C10. With `sortBySize` on and `std::sort` meeting its contract, for every list of extracted
contours and every area-filter configuration: every read of the comparator on indices being
sorted is inside the area vector, `findContours` stores a permutation of the contours that pass
the area filter, and the areas of the stored contours are in non-increasing order. -/
theorem findContours_sorted_by_area
    (stdSort : (Nat → Nat → Option Bool) → List Nat → List Nat)
    (contourArea : Contour → ℚ) (boundingRect : Contour → Rect)
    (cf : ContourFinder) (srcCopy : Mat) (allContours : List Contour)
    (hsort : SortContract stdSort) (hs : cf.sortBySize = true) :
    (∀ a ∈ (filterContours contourArea cf srcCopy allContours).1,
      ∀ b ∈ (filterContours contourArea cf srcCopy allContours).1,
        (CompareContourArea (filterContours contourArea cf srcCopy allContours).2 a b).isSome
          = true) ∧
    ∃ cf1, findContours stdSort contourArea boundingRect cf srcCopy allContours = some cf1 ∧
      cf1.contours.Perm
        (allContours.filter (fun c => passesAreaFilter cf srcCopy (contourArea c))) ∧
      (cf1.contours.map contourArea).Pairwise (fun a b => a ≥ b) := by
  have hmem := mem_filterContours_fst contourArea cf srcCopy allContours
  have hareas := filterContours_snd contourArea cf srcCopy allContours hs
  have hr : ∀ a ∈ (filterContours contourArea cf srcCopy allContours).1,
      ∀ b ∈ (filterContours contourArea cf srcCopy allContours).1,
        (CompareContourArea (filterContours contourArea cf srcCopy allContours).2 a b).isSome
          = true := by
    intro a ha b hb
    rw [hareas, compareContourArea_map contourArea allContours a b (hmem a ha) (hmem b hb)]
    rfl
  refine ⟨hr, ?_⟩
  obtain ⟨hperm, hpw⟩ := sortIndices_spec stdSort hsort cf _ _ hs hr
  have hmem1 : ∀ i ∈ sortIndices stdSort cf (filterContours contourArea cf srcCopy allContours).1
      (filterContours contourArea cf srcCopy allContours).2, i < allContours.length :=
    fun i hi => hmem i (hperm.mem_iff.1 hi)
  refine ⟨{ cf with
      contours := (sortIndices stdSort cf (filterContours contourArea cf srcCopy allContours).1
        (filterContours contourArea cf srcCopy allContours).2).map
          (fun i => allContours.getD i [])
      boundingRects := ((sortIndices stdSort cf
        (filterContours contourArea cf srcCopy allContours).1
        (filterContours contourArea cf srcCopy allContours).2).map
          (fun i => allContours.getD i [])).map boundingRect }, ?_, ?_, ?_⟩
  · unfold findContours
    simp only [storeLoop_eq allContours _ hmem1, Option.map_some']
  · show List.Perm (List.map (fun i => allContours.getD i []) _) _
    rw [← map_getD_filterContours]
    exact hperm.map _
  · show List.Pairwise _ (List.map contourArea (List.map (fun i => allContours.getD i []) _))
    rw [List.map_map, List.pairwise_map]
    refine List.Pairwise.imp_of_mem ?_ hpw
    intro x y hx hy hxy
    rw [hareas, compareContourArea_map contourArea allContours y x (hmem1 y hy) (hmem1 x hx)]
      at hxy
    simp only [Option.some.injEq, decide_eq_false_iff_not, not_lt] at hxy
    exact hxy

/-! ## An insertion sort meets the sort contract -/

theorem insertByCompare_perm (cmp : Nat → Nat → Option Bool) (x : Nat) :
    ∀ ys : List Nat, (insertByCompare cmp x ys).Perm (x :: ys) := by
  intro ys
  induction ys with
  | nil => exact List.Perm.refl _
  | cons y ys ih =>
    unfold insertByCompare
    split
    · exact List.Perm.refl _
    · exact (List.Perm.cons y ih).trans (List.Perm.swap x y ys)

theorem insertionSortBy_perm (cmp : Nat → Nat → Option Bool) :
    ∀ l : List Nat, (insertionSortBy cmp l).Perm l := by
  intro l
  induction l with
  | nil => exact List.Perm.refl _
  | cons x xs ih =>
    unfold insertionSortBy
    exact (insertByCompare_perm cmp x _).trans (List.Perm.cons x ih)

theorem compareContourArea_getD (areas : List ℚ) (a b : Nat) (ha : a < areas.length)
    (hb : b < areas.length) :
    CompareContourArea areas a b = some (decide (areas.getD a 0 > areas.getD b 0)) := by
  simp only [CompareContourArea, List.getElem?_eq_getElem ha, List.getElem?_eq_getElem hb,
    List.getD_eq_getElem areas 0 ha, List.getD_eq_getElem areas 0 hb]

theorem compareContourArea_isSome (areas : List ℚ) (a : Nat)
    (h : (CompareContourArea areas a a).isSome = true) : a < areas.length := by
  by_contra hn
  have : areas[a]? = none := List.getElem?_eq_none (not_lt.1 hn)
  simp [CompareContourArea, this] at h

theorem insertByCompare_sorted (areas : List ℚ) (x : Nat) (hx : x < areas.length) :
    ∀ ys : List Nat, (∀ y ∈ ys, y < areas.length) →
      ys.Pairwise (fun a b => areas.getD b 0 ≤ areas.getD a 0) →
      (insertByCompare (CompareContourArea areas) x ys).Pairwise
        (fun a b => areas.getD b 0 ≤ areas.getD a 0) := by
  intro ys
  induction ys with
  | nil => intro _ _; exact List.pairwise_singleton _ _
  | cons y ys ih =>
    intro hr hp
    have hy : y < areas.length := hr y (List.mem_cons_self _ _)
    have hp1 := List.pairwise_cons.1 hp
    unfold insertByCompare
    rw [compareContourArea_getD areas x y hx hy]
    by_cases hxy : areas.getD x 0 > areas.getD y 0
    · simp only [hxy, decide_True, if_true]
      refine List.pairwise_cons.2 ⟨?_, hp⟩
      intro z hz
      rcases List.mem_cons.1 hz with rfl | hz
      · exact le_of_lt hxy
      · exact le_trans (hp1.1 z hz) (le_of_lt hxy)
    · simp only [hxy, decide_False, Option.some.injEq, Bool.false_eq_true, if_false]
      refine List.pairwise_cons.2 ⟨?_, ih (fun z hz => hr z (List.mem_cons_of_mem _ hz)) hp1.2⟩
      intro z hz
      rcases List.mem_cons.1 ((insertByCompare_perm _ x ys).mem_iff.1 hz) with rfl | hz
      · exact not_lt.1 hxy
      · exact hp1.1 z hz

theorem insertionSortBy_sorted (areas : List ℚ) :
    ∀ l : List Nat, (∀ y ∈ l, y < areas.length) →
      (insertionSortBy (CompareContourArea areas) l).Pairwise
        (fun a b => areas.getD b 0 ≤ areas.getD a 0) := by
  intro l
  induction l with
  | nil => intro _; exact List.Pairwise.nil
  | cons x xs ih =>
    intro hr
    unfold insertionSortBy
    refine insertByCompare_sorted areas x (hr x (List.mem_cons_self _ _)) _ ?_
      (ih (fun z hz => hr z (List.mem_cons_of_mem _ hz)))
    intro y hy
    exact hr y (List.mem_cons_of_mem _ ((insertionSortBy_perm _ xs).mem_iff.1 hy))

theorem insertionSortBy_contract : SortContract insertionSortBy := by
  intro areas l hr
  have hin : ∀ y ∈ l, y < areas.length :=
    fun y hy => compareContourArea_isSome areas y (hr y hy y hy)
  refine ⟨insertionSortBy_perm _ l, ?_⟩
  refine List.Pairwise.imp_of_mem ?_ (insertionSortBy_sorted areas l hin)
  intro a b ha hb hab
  have ha1 := hin a ((insertionSortBy_perm _ l).mem_iff.1 ha)
  have hb1 := hin b ((insertionSortBy_perm _ l).mem_iff.1 hb)
  rw [compareContourArea_getD areas b a hb1 ha1]
  simp only [Option.some.injEq, decide_eq_false_iff_not, not_lt]
  exact hab

/-! ## The theorems at sample inputs -/

theorem fitQuad_small_hull_witness :
    sampleTriangle.length ≤ 4 ∧
    ((fitQuad dropSecond sampleTriangle).quad = sampleTriangle ∧
      (fitQuad dropSecond sampleTriangle).calls = []) :=
  ⟨by decide, fitQuad_small_hull dropSecond sampleTriangle (by decide)⟩

theorem fitQuad_refines_spec_witness :
    4 < sampleHull.length ∧
    ∃ j, 1 ≤ j ∧ j ≤ 16 ∧
      (fitQuad dropSecond sampleHull).quad =
        dropSecond sampleHull (specEpsilon dropSecond sampleHull j) ∧
      (∀ i, 1 ≤ i → i < j →
        (dropSecond sampleHull (specEpsilon dropSecond sampleHull i)).length ≠ 4) ∧
      ((dropSecond sampleHull (specEpsilon dropSecond sampleHull j)).length = 4 ∨ j = 16) :=
  ⟨by decide, fitQuad_refines_spec dropSecond sampleHull (by decide)⟩

theorem quadSearch_bracket_narrows_witness :
    (quadLoop collapse sampleHull 1 (quadInit sampleHull)).maxEpsilon = Flt.fin 16 ∧
    ((quadLoop collapse sampleHull 1 (quadInit sampleHull)).minEpsilon ≤ 16 ∧
      ((quadLoop collapse sampleHull (1 + 1) (quadInit sampleHull)).quad.length ≠ 4 →
        ∃ M1, (quadLoop collapse sampleHull (1 + 1) (quadInit sampleHull)).maxEpsilon
            = Flt.fin M1 ∧
          (quadLoop collapse sampleHull (1 + 1) (quadInit sampleHull)).minEpsilon ≤ M1 ∧
          M1 - (quadLoop collapse sampleHull (1 + 1) (quadInit sampleHull)).minEpsilon <
            16 - (quadLoop collapse sampleHull 1 (quadInit sampleHull)).minEpsilon)) :=
  ⟨rfl, quadSearch_bracket_narrows collapse sampleHull 1 16 rfl⟩

theorem fitQuad_epsilon_mono_witness :
    4 < sampleHull.length ∧ 4 < sampleHexagon.length ∧
    (∀ e, (dropSecond sampleHull e).length ≤ (dropSecond sampleHexagon e).length) ∧
    ∃ eA eB, (fitQuad dropSecond sampleHull).calls.head? = some eA ∧
      (fitQuad dropSecond sampleHull).quad = dropSecond sampleHull eA ∧
      (fitQuad dropSecond sampleHexagon).calls.head? = some eB ∧
      (fitQuad dropSecond sampleHexagon).quad = dropSecond sampleHexagon eB ∧ eA ≤ eB :=
  ⟨by decide, by decide, fun _ => (show (4 : Nat) ≤ 5 by decide),
    fitQuad_epsilon_mono dropSecond sampleHull sampleHexagon (by decide) (by decide)
      (fun _ => (show (4 : Nat) ≤ 5 by decide))⟩

theorem fitQuad_idempotent_witness :
    (fitQuad dropSecond sampleHull).quad.length = 4 ∧
    (fitQuad dropSecond (fitQuad dropSecond sampleHull).quad).quad =
      (fitQuad dropSecond sampleHull).quad :=
  ⟨by decide, fitQuad_idempotent dropSecond sampleHull (by decide)⟩

theorem getFitEllipse_fallback_witness :
    0 < sampleFinder.contours.length ∧
    ∃ c, sampleFinder.contours[0]? = some c ∧
      (c.length < 5 →
        getMinAreaRect fixedBox sampleFinder 0 = some (fixedBox c) ∧
          getFitEllipse fixedBox fixedBox sampleFinder 0 = some (fixedBox c, [])) ∧
      (5 ≤ c.length →
        getFitEllipse fixedBox fixedBox sampleFinder 0 = some (fixedBox c, [c])) ∧
      (∀ r calls, getFitEllipse fixedBox fixedBox sampleFinder 0 = some (r, calls) →
        ∀ c1 ∈ calls, 5 ≤ c1.length) :=
  ⟨by decide, getFitEllipse_fallback fixedBox fixedBox sampleFinder 0 (by decide)⟩

/-- C9. `getCenter` does not return the center of the bounding box when the width or the height
is odd: for the stored 3 by 3 box at the origin it returns `(1, 1)`, not `(3/2, 3/2)`. -/
theorem getCenter_truncates_odd_box :
    getBoundingRect sampleFinder 0 = some { x := 0, y := 0, width := 3, height := 3 } ∧
    getCenter sampleFinder 0 = some (1, 1) ∧
    getCenter sampleFinder 0 ≠ some ((0 : ℚ) + 3 / 2, (0 : ℚ) + 3 / 2) := by
  have h : getCenter sampleFinder 0 = some (1, 1) := by
    have h1 : wrapInt32 (Int.tdiv 3 2) = 1 := by decide
    simp [getCenter, getBoundingRect, sampleFinder, h1]
  refine ⟨rfl, h, ?_⟩
  rw [h]
  intro hc
  have h2 : ((1 : ℚ), (1 : ℚ)).1 = ((0 : ℚ) + 3 / 2, (0 : ℚ) + 3 / 2).1 :=
    congrArg Prod.fst (Option.some.inj hc)
  norm_num at h2

theorem findContours_sorted_by_area_witness :
    SortContract insertionSortBy ∧
    (setSortBySize ContourFinder.new true).sortBySize = true ∧
    ((∀ a ∈ (filterContours pointCount (setSortBySize ContourFinder.new true) sampleMat
          sampleContours).1,
      ∀ b ∈ (filterContours pointCount (setSortBySize ContourFinder.new true) sampleMat
          sampleContours).1,
        (CompareContourArea (filterContours pointCount (setSortBySize ContourFinder.new true)
          sampleMat sampleContours).2 a b).isSome = true) ∧
    ∃ cf1, findContours insertionSortBy pointCount fixedBox
        (setSortBySize ContourFinder.new true) sampleMat sampleContours = some cf1 ∧
      cf1.contours.Perm
        (sampleContours.filter (fun c =>
          passesAreaFilter (setSortBySize ContourFinder.new true) sampleMat (pointCount c))) ∧
      (cf1.contours.map pointCount).Pairwise (fun a b => a ≥ b)) :=
  ⟨insertionSortBy_contract, rfl,
    findContours_sorted_by_area insertionSortBy pointCount fixedBox
      (setSortBySize ContourFinder.new true) sampleMat sampleContours
      insertionSortBy_contract rfl⟩

end ofxCv
